import Mathlib

/-!
Shallow embedding of the x-axis coordinate and tick-generation code of the
KLineChart fork (file `XAxisImp`, plus the spec-described external time-scale
store), together with theorems checking the specification claims.

Conventions of the embedding:
* JavaScript numbers that hold integral values (data indices, pixel
  coordinates, calendar components) are modelled as `Int`.
* `new Date(row.timestamp)` and its accessors `getFullYear`, `getMonth`,
  `getDate` are external library calls; a bar therefore carries its decoded
  calendar components as fields next to the raw timestamp.
* `Date.prototype.toLocaleString('default', \x7bmonth: 'short'\x7d)` is modelled by
  the fixed table `monthShort` (default en locale of the host).
* JavaScript exceptions (reading a property of `undefined` after an
  out-of-bounds array access) are modelled by `Option`: `none` means the
  computation throws, `some l` means it returns `l`.
-/

namespace KLine

/-- Record of one bar as the axis code reads it: the raw millisecond
timestamp `ts` plus the calendar components the external `Date` library
decodes from it, and the `week` field stored on the row itself. -/
structure Bar where
  ts : Int
  year : Int
  month : Int
  day : Int
  week : Int
  deriving Repr, DecidableEq

/-- Tick descriptor as produced by the axis: `\x7btext, coord, value\x7d`. -/
structure Tick where
  text : String
  coord : Int
  value : Int
  deriving Repr, DecidableEq

/-- Model of `toLocaleString('default', \x7bmonth: 'short'\x7d)` on a date whose
`getMonth()` is `m` (0-based), in the default en locale. -/
def monthShort (m : Int) : String :=
  if m = 0 then "Jan" else if m = 1 then "Feb" else if m = 2 then "Mar"
  else if m = 3 then "Apr" else if m = 4 then "May" else if m = 5 then "Jun"
  else if m = 6 then "Jul" else if m = 7 then "Aug" else if m = 8 then "Sep"
  else if m = 9 then "Oct" else if m = 10 then "Nov" else if m = 11 then "Dec"
  else ""

/-- Model of the array read `data[i]`: `none` when `i` is out of bounds
(`undefined` in JavaScript; dereferencing it throws). -/
def getRow (data : List Bar) (i : Int) : Option Bar :=
  if 0 ≤ i then data.get? i.toNat else none

/-- List of `n` consecutive integers starting at `a`. -/
def consec (a : Int) : Nat → List Int
  | 0 => []
  | n + 1 => a :: consec (a + 1) n

/-- Index list visited by `for (let i = a; i <= b; ++i)`. -/
def idxRange (a b : Int) : List Int :=
  consec a (b + 1 - a).toNat

/-- Return value of `calcRange` (the `AxisRange` object literal built in the
source; `from` and `to` are Lean keywords, hence the primed field names). -/
structure AxisRange where
  from' : Int
  to' : Int
  range : Int
  realFrom : Int
  realTo : Int
  realRange : Int
  deriving Repr, DecidableEq

/-- Embedding of `XAxisImp.calcRange`: reads the store visible range
`\x7bfrom, to\x7d` and builds `\x7bfrom: af, to: at, range, realFrom: af,
realTo: at, realRange: range\x7d` with `af = from`, `at = to - 1`,
`range = to - from`. -/
def calcRange (vfrom vto : Int) : AxisRange :=
  let af := vfrom
  let at' := vto - 1
  let range := vto - vfrom
  { from' := af, to' := at', range := range,
    realFrom := af, realTo := at', realRange := range }

/-- Generic shape shared by the four `switch` branches of `_optimalTicks`:
walk the index list, look the row up (throwing on `undefined`), emit a tick
when `cond` holds of the previous-key state and the row, and update the
state from every row (the source updates `prevX` on every iteration, inside
or outside the `if`). -/
def groupTicks {σ : Type} (data : List Bar)
    (cond : σ → Bar → Bool) (mk : Int → Bar → σ → Tick) (upd : σ → Bar → σ) :
    σ → List Int → Option (List Tick)
  | _, [] => some []
  | s, i :: rest => do
    let row ← getRow data i
    let tail ← groupTicks data cond mk upd (upd s row) rest
    some ((if cond s row then [mk i row s] else []) ++ tail)

/-- Branch `'5m' | '10m' | '15m' | '30m' | '1h'` of `_optimalTicks`.
State is `(prevMonth, prevDay)`, both initially `null`; a tick is emitted
when `day !== prevDay`, with text `` `$\x7bday\x7d` `` when `month === prevMonth`
and `` `$\x7bshortMonth\x7d $\x7bday\x7d` `` otherwise, at coordinate
`convertToPixel(i) - halfBar`. -/
def ticksSubHour (data : List Bar) (toPixel : Int → Int) (halfBar : Int) :
    Option Int × Option Int → List Int → Option (List Tick) :=
  groupTicks data
    (fun s row => decide (some row.day ≠ s.2))
    (fun i row s =>
      { text := if some row.month = s.1 then toString row.day
                else monthShort row.month ++ " " ++ toString row.day,
        coord := toPixel i - halfBar,
        value := i })
    (fun _ row => (some row.month, some row.day))

/-- Branch `'2h' | '3h'` of `_optimalTicks`. State is `(prevWeek, prevMonth)`;
a tick is emitted when `week !== prevWeek`, with text `` `$\x7bday\x7d` `` when
`month === prevMonth` and `` `$\x7bday\x7d $\x7bshortMonth\x7d` `` otherwise, at the
bar coordinate. -/
def ticksWeekly (data : List Bar) (toPixel : Int → Int) :
    Option Int × Option Int → List Int → Option (List Tick) :=
  groupTicks data
    (fun s row => decide (some row.week ≠ s.1))
    (fun i row s =>
      { text := if some row.month = s.2 then toString row.day
                else toString row.day ++ " " ++ monthShort row.month,
        coord := toPixel i,
        value := i })
    (fun _ row => (some row.week, some row.month))

/-- Branch `'1d'` of `_optimalTicks`. State is `(prevMonth, prevYear)`; a
tick is emitted when `prevMonth !== month`, with text `shortMonth` when
`year === prevYear` and `` `$\x7byear\x7d` `` otherwise, at the bar coordinate. -/
def ticksDaily (data : List Bar) (toPixel : Int → Int) :
    Option Int × Option Int → List Int → Option (List Tick) :=
  groupTicks data
    (fun s row => decide (s.1 ≠ some row.month))
    (fun i row s =>
      { text := if some row.year = s.2 then monthShort row.month
                else toString row.year,
        coord := toPixel i,
        value := i })
    (fun _ row => (some row.month, some row.year))

/-- Branch `'1w' | '1mo'` of `_optimalTicks`. State is `prevYear`; a tick is
emitted when `year !== prevYear`, with text `` `$\x7byear\x7d` ``, at the bar
coordinate. -/
def ticksYearly (data : List Bar) (toPixel : Int → Int) :
    Option Int → List Int → Option (List Tick) :=
  groupTicks data
    (fun s row => decide (some row.year ≠ s))
    (fun i row _ =>
      { text := toString row.year, coord := toPixel i, value := i })
    (fun _ row => some row.year)

/-- State an `XAxisImp` instance reads through its accessor chains:
the bar list, the store visible range, the ambient interval string
(`window.api?.interval`), the bar spacing, the store coordinate conversion,
the custom `formatDate` API (pattern and timestamp to text) and the measured
width of the reference label (`calcTextWidth('00-00 00:00', ...)`). -/
structure XAxisState where
  data : List Bar
  visibleFrom : Int
  visibleTo : Int
  interval : String
  halfBar : Int
  toPixel : Int → Int
  fmtDate : String → Int → String
  labelWidth : Nat

/-- Embedding of `XAxisImp._optimalTicks`: dispatch on the interval string
(`(window as any).api?.interval || '1d'`, the `||` default modelled by
treating the empty string as falsy) and run the matching grouping loop over
`realFrom..realTo`; an unrecognized interval falls through the `switch`
and returns the empty accumulator. -/
def _optimalTicks (st : XAxisState) : Option (List Tick) :=
  let r := calcRange st.visibleFrom st.visibleTo
  let idxs := idxRange r.realFrom r.realTo
  let interval := if st.interval = "" then "1d" else st.interval
  if interval = "5m" ∨ interval = "10m" ∨ interval = "15m" ∨
      interval = "30m" ∨ interval = "1h" then
    ticksSubHour st.data st.toPixel st.halfBar (none, none) idxs
  else if interval = "2h" ∨ interval = "3h" then
    ticksWeekly st.data st.toPixel (none, none) idxs
  else if interval = "1d" then
    ticksDaily st.data st.toPixel (none, none) idxs
  else if interval = "1w" ∨ interval = "1mo" then
    ticksYearly st.data st.toPixel none idxs
  else some []

/-- Input tick as the legacy `optimalTicks` body consumes it: the source
parses `ticks[i].value` with `parseInt(..., 10)`; the embedding carries the
parsed data index directly. -/
structure RawTick where
  value : Int
  deriving Repr, DecidableEq

/-- Embedding of `XAxisImp._optimalTickLabel`: compare the formatted year,
year-month and month-day of the two timestamps and return the most specific
differing component, or `null` when all three match. -/
def _optimalTickLabel (fmtDate : String → Int → String)
    (timestamp comparedTimestamp : Int) : Option String :=
  let year := fmtDate "YYYY" timestamp
  let month := fmtDate "YYYY-MM" timestamp
  let day := fmtDate "MM-DD" timestamp
  if year ≠ fmtDate "YYYY" comparedTimestamp then some year
  else if month ≠ fmtDate "YYYY-MM" comparedTimestamp then some month
  else if day ≠ fmtDate "MM-DD" comparedTimestamp then some day
  else none

/-- Model of the regular expression `/^[0-9]\x7b2\x7d-[0-9]\x7b2\x7d$/.test(s)`. -/
def matchMMDD (s : String) : Bool :=
  match s.toList with
  | [a, b, c, d, e] => a.isDigit && b.isDigit && c = '-' && d.isDigit && e.isDigit
  | _ => false

/-- Model of the regular expression `/^[0-9]\x7b4\x7d-[0-9]\x7b2\x7d$/.test(s)`. -/
def matchYYYYMM (s : String) : Bool :=
  match s.toList with
  | [a, b, c, d, e, f, g] =>
    a.isDigit && b.isDigit && c.isDigit && d.isDigit && e = '-' &&
      f.isDigit && g.isDigit
  | _ => false

/-- Model of the regular expression `/^[0-9]\x7b4\x7d$/.test(s)`. -/
def matchYYYY (s : String) : Bool :=
  match s.toList with
  | [a, b, c, d] => a.isDigit && b.isDigit && c.isDigit && d.isDigit
  | _ => false

/-- Stride (`tickCountDif`) computed by the legacy `optimalTicks` body: 1 by
default; when there are at least two input ticks and the pixel distance of
the first two is below the reference label width, `Math.ceil(width / xDif)`.
A zero distance makes the JavaScript stride `Infinity`, so only index 0 is
visited; the embedding encodes that case as stride 0, which `strideIndices`
maps to the single index 0. -/
def legacyStride (st : XAxisState) (ticks : List RawTick) : Nat :=
  match ticks with
  | t0 :: t1 :: _ =>
    let x := st.toPixel t0.value
    let nextX := st.toPixel t1.value
    let xDif := (nextX - x).natAbs
    if xDif < st.labelWidth then
      if xDif = 0 then 0 else (st.labelWidth + xDif - 1) / xDif
    else 1
  | _ => 1

/-- Indices visited by `for (let i = 0; i < len; i += stride)`; stride 0
stands for the JavaScript `Infinity` stride (only index 0). -/
def strideIndices (len stride : Nat) : List Nat :=
  (List.range len).filter (fun i => i % stride = 0)

/-- One iteration of the legacy `optimalTicks` loop at input index `i`:
look up the candidate tick, its bar (`dataList[pos]`, throwing when
`undefined`), format the base `HH:mm` text, refine it against the previously
visited candidate when `i !== 0`, and emit
`\x7btext, coord: convertToPixel(pos), value: timestamp\x7d`. -/
def legacyTick (st : XAxisState) (ticks : List RawTick) (stride : Nat)
    (i : Nat) : Option Tick := do
  let t ← ticks.get? i
  let row ← getRow st.data t.value
  let base := st.fmtDate "HH:mm" row.ts
  let text ←
    if i ≠ 0 then do
      let pt ← ticks.get? (i - stride)
      let prow ← getRow st.data pt.value
      some ((_optimalTickLabel st.fmtDate row.ts prow.ts).getD base)
    else some base
  some { text := text, coord := st.toPixel t.value, value := row.ts }

/-- First-tick relabeling pass at the end of the legacy `optimalTicks` body:
a single tick gets the fully qualified `YYYY-MM-DD HH:mm` label; with a
third tick present the first label is rewritten according to the pattern of
the third text; with exactly two ticks the first label is refined against
the second timestamp. (The pass runs inside `if (tickLength > 0)`, where the
produced list is never empty; the `[]` equation is therefore unreachable.) -/
def legacyPost (st : XAxisState) : List Tick → List Tick
  | [] => []
  | [t] => [{ t with text := st.fmtDate "YYYY-MM-DD HH:mm" t.value }]
  | t0 :: t1 :: t2 :: rest =>
    let t0' :=
      if matchMMDD t2.text then
        { t0 with text := st.fmtDate "MM-DD" t0.value }
      else if matchYYYYMM t2.text then
        { t0 with text := st.fmtDate "YYYY-MM" t0.value }
      else if matchYYYY t2.text then
        { t0 with text := st.fmtDate "YYYY" t0.value }
      else t0
    t0' :: t1 :: t2 :: rest
  | [t0, t1] =>
    [{ t0 with text := (_optimalTickLabel st.fmtDate t0.value t1.value).getD t0.text },
     t1]

/-- Embedding of the legacy strategy in the `optimalTicks` body (the code
after its first `return` statement): stride-based density reduction over
the candidate ticks followed by the first-tick relabeling pass. -/
def optimalTicksLegacy (st : XAxisState) (ticks : List RawTick) :
    Option (List Tick) :=
  if ticks.length = 0 then some []
  else
    ((strideIndices ticks.length (legacyStride st ticks)).mapM
        (legacyTick st ticks (legacyStride st ticks))).bind
      fun l => some (legacyPost st l)

/-- Body of `XAxisImp.optimalTicks` with `return` modelled as `throw`: the
first statement returns `this._optimalTicks(ticks)`, and the remaining
legacy code (lines 44 through 99 of the source) sits after it. -/
def optimalTicksBody (st : XAxisState) (ticks : List RawTick) :
    Except (Option (List Tick)) Empty := do
  throw (_optimalTicks st)
  throw (optimalTicksLegacy st ticks)

/-- Embedding of the public `XAxisImp.optimalTicks`: run the body until its
first `return`. -/
def optimalTicks (st : XAxisState) (ticks : List RawTick) :
    Option (List Tick) :=
  match optimalTicksBody st ticks with
  | .error r => r
  | .ok e => e.elim

/-- Style records read by `getAutoSize` (`show` is a Lean keyword, hence the
primed field names). -/
structure AxisLineStyle where
  show' : Bool
  size : Int
  deriving Repr, DecidableEq

structure TickLineStyle where
  show' : Bool
  length : Int
  deriving Repr, DecidableEq

structure TickTextStyle where
  show' : Bool
  marginStart : Int
  marginEnd : Int
  size : Int
  deriving Repr, DecidableEq

/-- Styles of the x axis; `size = none` stands for the `'auto'` setting. -/
structure XAxisStyles where
  size : Option Int
  show' : Bool
  axisLine : AxisLineStyle
  tickLine : TickLineStyle
  tickText : TickTextStyle
  deriving Repr, DecidableEq

structure CrosshairTextStyle where
  show' : Bool
  paddingTop : Int
  paddingBottom : Int
  borderSize : Int
  size : Int
  deriving Repr, DecidableEq

structure CrosshairVerticalStyle where
  show' : Bool
  text : CrosshairTextStyle
  deriving Repr, DecidableEq

structure CrosshairStyles where
  show' : Bool
  vertical : CrosshairVerticalStyle
  deriving Repr, DecidableEq

structure Styles where
  xAxis : XAxisStyles
  crosshair : CrosshairStyles
  deriving Repr, DecidableEq

/-- Embedding of `XAxisImp.getAutoSize`: a fixed configured height is
returned as is; under `'auto'`, the axis band height (axis line, tick line
and tick text contributions, each behind its show flag, all behind the
x-axis show flag) is compared with the crosshair vertical label height
(paddings, twice the border size and the text size, when the crosshair, its
vertical line and its text are all shown), and the larger is returned. -/
def getAutoSize (styles : Styles) : Int :=
  match styles.xAxis.size with
  | some height => height
  | none =>
    let xAxisStyles := styles.xAxis
    let crosshairStyles := styles.crosshair
    let xAxisHeight :=
      if xAxisStyles.show' then
        (if xAxisStyles.axisLine.show' then xAxisStyles.axisLine.size else 0) +
        (if xAxisStyles.tickLine.show' then xAxisStyles.tickLine.length else 0) +
        (if xAxisStyles.tickText.show' then
          xAxisStyles.tickText.marginStart + xAxisStyles.tickText.marginEnd +
            xAxisStyles.tickText.size
         else 0)
      else 0
    let crosshairVerticalTextHeight :=
      if crosshairStyles.show' ∧ crosshairStyles.vertical.show' ∧
          crosshairStyles.vertical.text.show' then
        crosshairStyles.vertical.text.paddingTop +
          crosshairStyles.vertical.text.paddingBottom +
          crosshairStyles.vertical.text.borderSize * 2 +
          crosshairStyles.vertical.text.size
      else 0
    max xAxisHeight crosshairVerticalTextHeight

/-- State of the external time-scale store as far as the coordinate mapping
needs it: the pixel of the (virtual) bar at index 0, the pixel width of one
bar, the half bar width, and the visible index range. -/
structure TimeScaleState where
  origin : Int
  barSpace : Int
  halfBar : Int
  vfrom : Int
  vto : Int

/-- Modelled from the spec: `TimeScaleStore.dataIndexToCoordinate`, the
forward pan/zoom transform, is not part of the provided sources; per spec
section 4.1 it is monotonic in the data index under a fixed pan/zoom state
with constant bar spacing, mapping index `i` to the pixel at the center of
its bar. -/
def dataIndexToCoordinate (s : TimeScaleState) (i : Int) : Int :=
  s.origin + i * s.barSpace + s.halfBar

/-- Modelled from the spec: `TimeScaleStore.coordinateToDataIndex`, the
inverse of the pan/zoom transform, is not part of the provided sources; per
spec section 4.1 it recovers the index of the bar whose pixel span contains
the coordinate (floor of the pixel offset over the bar spacing). -/
def coordinateToDataIndex (s : TimeScaleState) (p : Int) : Int :=
  (p - s.origin).fdiv s.barSpace

/-- Embedding of `XAxisImp.convertToPixel`: delegates to
`timeScaleStore.dataIndexToCoordinate`. -/
def convertToPixel (s : TimeScaleState) (value : Int) : Int :=
  dataIndexToCoordinate s value

/-- Embedding of `XAxisImp.convertFromPixel`: delegates to
`timeScaleStore.coordinateToDataIndex`. -/
def convertFromPixel (s : TimeScaleState) (pixel : Int) : Int :=
  coordinateToDataIndex s pixel

/-! Specification-side definitions, written from the wording of the claims,
to be compared with the embedded code. -/

/-- Tick the daily grouping is claimed to emit at index `i` of a range
starting at `a`: a tick exactly at the first visible bar of each calendar
month (a pair of year and month), labeled with the abbreviated month name
when the year is unchanged from the previous bar and with the four-digit
year otherwise (in particular at the very first visible bar, where no prior
year exists). -/
def dailyTickSpecAt (data : List Bar) (toPixel : Int → Int) (a i : Int) :
    Option Tick :=
  (getRow data i).bind fun row =>
    if i = a then
      some { text := toString row.year, coord := toPixel i, value := i }
    else
      (getRow data (i - 1)).bind fun prev =>
        if row.year = prev.year ∧ row.month = prev.month then none
        else
          some { text := if row.year = prev.year then monthShort row.month
                         else toString row.year,
                 coord := toPixel i, value := i }

/-- Claimed daily tick sequence over the visible range `a..b`. -/
def dailyTicksSpec (data : List Bar) (toPixel : Int → Int) (a b : Int) :
    List Tick :=
  (idxRange a b).filterMap (dailyTickSpecAt data toPixel a)

/-- Tick the sub-hour grouping is claimed to emit at index `i` of a range
starting at `a`: a tick exactly at the first bar of each new calendar day
(year, month and day triple), labeled with the day number alone when the
month is unchanged from the previous bar and with the abbreviated month
plus day number otherwise, offset backward by half a bar width. -/
def subHourTickSpecAt (data : List Bar) (toPixel : Int → Int) (halfBar : Int)
    (a i : Int) : Option Tick :=
  (getRow data i).bind fun row =>
    if i = a then
      some { text := monthShort row.month ++ " " ++ toString row.day,
             coord := toPixel i - halfBar, value := i }
    else
      (getRow data (i - 1)).bind fun prev =>
        if row.year = prev.year ∧ row.month = prev.month ∧ row.day = prev.day
        then none
        else
          some { text := if row.month = prev.month then toString row.day
                         else monthShort row.month ++ " " ++ toString row.day,
                 coord := toPixel i - halfBar, value := i }

/-- Claimed sub-hour tick sequence over the visible range `a..b`. -/
def subHourTicksSpec (data : List Bar) (toPixel : Int → Int) (halfBar : Int)
    (a b : Int) : List Tick :=
  (idxRange a b).filterMap (subHourTickSpecAt data toPixel halfBar a)

/-- Timestamp of the candidate tick at input position `i`: the bar the
candidate points at, looked up in the data list. -/
def candTs (st : XAxisState) (ticks : List RawTick) (i : Nat) : Option Int :=
  (ticks.get? i).bind fun t => (getRow st.data t.value).map (fun r => r.ts)

/-- Axis band height as the claim for `getAutoSize` words it: axis-line
size, tick-line length, and tick-text margins plus text size, each term
included when its show flag is set. -/
def axisBandHeightSpec (x : XAxisStyles) : Int :=
  (if x.axisLine.show' then x.axisLine.size else 0) +
  (if x.tickLine.show' then x.tickLine.length else 0) +
  (if x.tickText.show' then x.tickText.marginStart + x.tickText.marginEnd +
    x.tickText.size else 0)

/-- Crosshair vertical readout label height as the claim for `getAutoSize`
words it: top and bottom padding plus twice the border size plus the text
size, when the crosshair, its vertical line and its text are all shown. -/
def crosshairLabelHeightSpec (c : CrosshairStyles) : Int :=
  if c.show' ∧ c.vertical.show' ∧ c.vertical.text.show' then
    c.vertical.text.paddingTop + c.vertical.text.paddingBottom +
      c.vertical.text.borderSize * 2 + c.vertical.text.size
  else 0

/-! Concrete fixtures used to witness the theorems on explicit inputs. -/

/-- Build a bar from its timestamp, decoded calendar components and week. -/
def mkBar (ts year month day week : Int) : Bar :=
  { ts := ts, year := year, month := month, day := day, week := week }

/-- Concrete stand-in for the external `formatDate` API: tags the pattern
with the timestamp, so distinct patterns give distinct texts. -/
def fmtDateC (pattern : String) (ts : Int) : String :=
  pattern ++ "@" ++ toString ts

/-- Daily bars covering Jan 28 through Feb 3, 2021 (months 0-based). -/
def dataC2 : List Bar :=
  [mkBar 100 2021 0 28 4, mkBar 101 2021 0 29 4, mkBar 102 2021 0 30 4,
   mkBar 103 2021 0 31 4, mkBar 104 2021 1 1 5, mkBar 105 2021 1 2 5,
   mkBar 106 2021 1 3 5]

/-- Daily-interval axis over `dataC2`, fully visible. -/
def stC2 : XAxisState :=
  { data := dataC2, visibleFrom := 0, visibleTo := 7, interval := "1d",
    halfBar := 2, toPixel := fun i => 10 * i, fmtDate := fmtDateC,
    labelWidth := 60 }

/-- Intraday bars crossing the Jan 31 / Feb 1, 2021 day boundary. -/
def dataC3 : List Bar :=
  [mkBar 200 2021 0 31 4, mkBar 201 2021 1 1 4, mkBar 202 2021 1 1 4]

/-- Five-minute-interval axis over `dataC3`, fully visible. -/
def stC3 : XAxisState :=
  { data := dataC3, visibleFrom := 0, visibleTo := 3, interval := "5m",
    halfBar := 2, toPixel := fun i => 10 * i, fmtDate := fmtDateC,
    labelWidth := 60 }

/-- Two-hour-interval axis over two bars of one week. -/
def stC3b : XAxisState :=
  { data := [mkBar 300 2021 0 4 1, mkBar 301 2021 0 5 1],
    visibleFrom := 0, visibleTo := 2, interval := "2h",
    halfBar := 2, toPixel := fun i => 10 * i, fmtDate := fmtDateC,
    labelWidth := 60 }

/-- Daily-interval axis over a single bar. -/
def stC5 : XAxisState :=
  { data := [mkBar 1111 2021 0 5 1], visibleFrom := 0, visibleTo := 1,
    interval := "1d", halfBar := 0, toPixel := fun i => 10 * i,
    fmtDate := fmtDateC, labelWidth := 0 }

/-- Four bars addressed by the legacy candidate ticks `ticksC6`. -/
def dataC6 : List Bar :=
  [mkBar 500 2021 0 1 1, mkBar 501 2021 0 2 1, mkBar 502 2021 0 3 1,
   mkBar 503 2021 0 4 1]

/-- Axis whose bar pixel gap (3) is below the reference label width (7). -/
def stC6 : XAxisState :=
  { data := dataC6, visibleFrom := 0, visibleTo := 4, interval := "1d",
    halfBar := 0, toPixel := fun i => 3 * i, fmtDate := fmtDateC,
    labelWidth := 7 }

/-- Candidate ticks at data indices 0 through 3. -/
def ticksC6 : List RawTick :=
  [{ value := 0 }, { value := 1 }, { value := 2 }, { value := 3 }]

/-- Axis over an empty data list with the degenerate store range 0..0. -/
def stC7 : XAxisState :=
  { data := [], visibleFrom := 0, visibleTo := 0, interval := "1h",
    halfBar := 0, toPixel := fun i => i, fmtDate := fmtDateC,
    labelWidth := 0 }

/-- Fully shown style configuration with the axis height set to auto. -/
def stylesC9 : Styles :=
  { xAxis :=
      { size := none, show' := true,
        axisLine := { show' := true, size := 1 },
        tickLine := { show' := true, length := 3 },
        tickText := { show' := true, marginStart := 4, marginEnd := 6,
                      size := 12 } },
    crosshair :=
      { show' := true,
        vertical :=
          { show' := true,
            text := { show' := true, paddingTop := 4, paddingBottom := 4,
                      borderSize := 1, size := 12 } } } }

/-- Concrete time-scale store state: 10 pixels per bar, centered labels. -/
def tsC1 : TimeScaleState :=
  { origin := 7, barSpace := 10, halfBar := 5, vfrom := 0, vto := 100 }

/-! Helper lemmas about the index range and the generic grouping loop. -/

theorem mem_consec {i a : Int} {n : Nat} :
    i ∈ consec a n ↔ a ≤ i ∧ i < a + n := by
  induction n generalizing a with
  | zero => simp [consec]
  | succ m ih =>
    simp only [consec, List.mem_cons, ih]
    omega

theorem pairwise_consec (a : Int) (n : Nat) :
    (consec a n).Pairwise (· < ·) := by
  induction n generalizing a with
  | zero => simp [consec]
  | succ m ih =>
    refine List.Pairwise.cons ?_ (ih (a + 1))
    intro j hj
    have := mem_consec.mp hj
    omega

theorem idxRange_eq_nil {a b : Int} (h : b < a) : idxRange a b = [] := by
  have : (b + 1 - a).toNat = 0 := by omega
  simp [idxRange, this, consec]

theorem idxRange_eq_cons {a b : Int} (h : a ≤ b) :
    idxRange a b = a :: idxRange (a + 1) b := by
  have h1 : (b + 1 - a).toNat = (b + 1 - (a + 1)).toNat + 1 := by omega
  simp only [idxRange, h1, consec]

theorem idxRange_eq_consec (a b : Int) :
    idxRange a b = consec a (b + 1 - a).toNat := rfl

theorem mem_idxRange {i a b : Int} : i ∈ idxRange a b ↔ a ≤ i ∧ i ≤ b := by
  rw [idxRange_eq_consec, mem_consec]
  omega

theorem pairwise_idxRange (a b : Int) : (idxRange a b).Pairwise (· < ·) :=
  pairwise_consec _ _

theorem getRow_isSome {data : List Bar} {i : Int} :
    (getRow data i).isSome ↔ 0 ≤ i ∧ i < data.length := by
  unfold getRow
  split
  · rename_i h
    rw [Option.isSome_iff_ne_none]
    simp only [ne_eq, List.get?_eq_none, not_le]
    omega
  · rename_i h
    simp only [Option.isSome_none, Bool.false_eq_true, false_iff]
    omega

theorem groupTicks_nil {σ : Type} (data : List Bar) (c : σ → Bar → Bool)
    (mk : Int → Bar → σ → Tick) (u : σ → Bar → σ) (s : σ) :
    groupTicks data c mk u s [] = some [] := rfl

theorem groupTicks_cons {σ : Type} (data : List Bar) (c : σ → Bar → Bool)
    (mk : Int → Bar → σ → Tick) (u : σ → Bar → σ) (s : σ) (i : Int)
    (rest : List Int) :
    groupTicks data c mk u s (i :: rest) =
      (getRow data i).bind fun row =>
        (groupTicks data c mk u (u s row) rest).bind fun tail =>
          some ((if c s row then [mk i row s] else []) ++ tail) := rfl

theorem groupTicks_isSome {σ : Type} (data : List Bar) (c : σ → Bar → Bool)
    (mk : Int → Bar → σ → Tick) (u : σ → Bar → σ) :
    ∀ (l : List Int) (s : σ), (∀ i ∈ l, (getRow data i).isSome) →
      ∃ ts, groupTicks data c mk u s l = some ts := by
  intro l
  induction l with
  | nil => exact fun s _ => ⟨[], rfl⟩
  | cons i rest ih =>
    intro s h
    obtain ⟨row, hrow⟩ := Option.isSome_iff_exists.mp (h i (by simp))
    obtain ⟨tail, htail⟩ := ih (u s row) (fun j hj => h j (by simp [hj]))
    exact ⟨_, by rw [groupTicks_cons, hrow, Option.some_bind, htail,
      Option.some_bind]⟩

theorem groupTicks_mem {σ : Type} {data : List Bar} {c : σ → Bar → Bool}
    {mk : Int → Bar → σ → Tick} {u : σ → Bar → σ} :
    ∀ {l : List Int} {s : σ} {ts : List Tick},
      groupTicks data c mk u s l = some ts →
      ∀ t ∈ ts, ∃ i row s', i ∈ l ∧ getRow data i = some row ∧
        t = mk i row s' := by
  intro l
  induction l with
  | nil =>
    intro s ts h t ht
    rw [groupTicks_nil, Option.some_inj] at h
    subst h
    simp at ht
  | cons i rest ih =>
    intro s ts h t ht
    rw [groupTicks_cons] at h
    cases hrow : getRow data i with
    | none => rw [hrow] at h; simp at h
    | some row =>
      rw [hrow, Option.some_bind] at h
      cases htail : groupTicks data c mk u (u s row) rest with
      | none => rw [htail] at h; simp at h
      | some tail =>
        rw [htail, Option.some_bind, Option.some_inj] at h
        subst h
        rw [List.mem_append] at ht
        rcases ht with ht | ht
        · by_cases hc : c s row
          · simp only [hc, if_true, List.mem_singleton] at ht
            exact ⟨i, row, s, by simp, hrow, ht⟩
          · simp [hc] at ht
        · obtain ⟨i', row', s'', h1, h2, h3⟩ := ih htail t ht
          exact ⟨i', row', s'', by simp [h1], h2, h3⟩

theorem groupTicks_values_sublist {σ : Type} {data : List Bar}
    {c : σ → Bar → Bool} {mk : Int → Bar → σ → Tick} {u : σ → Bar → σ}
    (hmk : ∀ i row s, (mk i row s).value = i) :
    ∀ {l : List Int} {s : σ} {ts : List Tick},
      groupTicks data c mk u s l = some ts →
      List.Sublist (ts.map (fun t => t.value)) l := by
  intro l
  induction l with
  | nil =>
    intro s ts h
    rw [groupTicks_nil, Option.some_inj] at h
    subst h
    simp
  | cons i rest ih =>
    intro s ts h
    rw [groupTicks_cons] at h
    cases hrow : getRow data i with
    | none => rw [hrow] at h; simp at h
    | some row =>
      rw [hrow, Option.some_bind] at h
      cases htail : groupTicks data c mk u (u s row) rest with
      | none => rw [htail] at h; simp at h
      | some tail =>
        rw [htail, Option.some_bind, Option.some_inj] at h
        subst h
        rw [List.map_append]
        by_cases hc : c s row
        · simp only [hc, if_true, List.map_cons, List.map_nil, hmk,
            List.singleton_append]
          exact List.Sublist.cons₂ i (ih htail)
        · simp only [hc, if_false, List.map_nil, List.nil_append]
          exact List.Sublist.cons i (ih htail)

theorem groupTicks_head {σ : Type} {data : List Bar} {c : σ → Bar → Bool}
    {mk : Int → Bar → σ → Tick} {u : σ → Bar → σ} {s : σ} {i : Int}
    {rest : List Int} {ts : List Tick} {row : Bar}
    (hrow : getRow data i = some row) (hc : c s row = true)
    (h : groupTicks data c mk u s (i :: rest) = some ts) :
    ∃ ts', ts = mk i row s :: ts' := by
  rw [groupTicks_cons, hrow, Option.some_bind] at h
  cases htail : groupTicks data c mk u (u s row) rest with
  | none => rw [htail] at h; simp at h
  | some tail =>
    rw [htail, Option.some_bind, Option.some_inj] at h
    exact ⟨tail, by rw [← h]; simp [hc]⟩

theorem groupTicks_run {σ : Type} {data : List Bar} {c : σ → Bar → Bool}
    {mk : Int → Bar → σ → Tick} {u : σ → Bar → σ} (stateOf : Bar → σ)
    (hu : ∀ s row, u s row = stateOf row) :
    ∀ (n : Nat) (a : Int) (prev : Bar),
      getRow data (a - 1) = some prev →
      (∀ k : Nat, k < n → (getRow data (a + k)).isSome) →
      groupTicks data c mk u (stateOf prev) (consec a n) =
        some ((consec a n).filterMap fun i =>
          (getRow data i).bind fun row =>
            (getRow data (i - 1)).bind fun p =>
              if c (stateOf p) row then some (mk i row (stateOf p))
              else none) := by
  intro n
  induction n with
  | zero => intro a prev _ _; simp [consec, groupTicks_nil]
  | succ m ih =>
    intro a prev hprev hv
    obtain ⟨row, hrow⟩ : ∃ row, getRow data a = some row := by
      have h0 := hv 0 (Nat.succ_pos m)
      rw [show a + ((0 : Nat) : Int) = a by simp] at h0
      exact Option.isSome_iff_exists.mp h0
    have hv' : ∀ k : Nat, k < m → (getRow data (a + 1 + k)).isSome := by
      intro k hk
      have h1 := hv (k + 1) (by omega)
      rw [show a + (((k + 1 : Nat)) : Int) = a + 1 + k by push_cast; ring] at h1
      exact h1
    have hprev' : getRow data ((a + 1) - 1) = some row := by
      rw [show a + 1 - 1 = a by ring, hrow]
    rw [show consec a (m + 1) = a :: consec (a + 1) m from rfl,
      groupTicks_cons, hrow, Option.some_bind, hu,
      ih (a + 1) row hprev' hv', Option.some_bind, List.filterMap_cons,
      hrow, Option.some_bind, hprev, Option.some_bind]
    by_cases hc : c (stateOf prev) row <;> simp [hc]

theorem groupTicks_run_top {σ : Type} {data : List Bar} {c : σ → Bar → Bool}
    {mk : Int → Bar → σ → Tick} {u : σ → Bar → σ} (stateOf : Bar → σ)
    (s₀ : σ) (hu : ∀ s row, u s row = stateOf row)
    (hc0 : ∀ row, c s₀ row = true) (a b : Int)
    (hv : ∀ i : Int, a ≤ i → i ≤ b → (getRow data i).isSome) :
    groupTicks data c mk u s₀ (idxRange a b) =
      some ((idxRange a b).filterMap fun i =>
        (getRow data i).bind fun row =>
          if i = a then some (mk i row s₀)
          else (getRow data (i - 1)).bind fun p =>
            if c (stateOf p) row then some (mk i row (stateOf p))
            else none) := by
  rcases lt_or_le b a with hba | hab
  · rw [idxRange_eq_nil hba]
    simp [groupTicks_nil]
  · obtain ⟨row, hrow⟩ : ∃ row, getRow data a = some row :=
      Option.isSome_iff_exists.mp (hv a le_rfl hab)
    have hv' : ∀ k : Nat, k < (b - a).toNat →
        (getRow data (a + 1 + k)).isSome := by
      intro k hk
      exact hv (a + 1 + k) (by omega) (by omega)
    have hprev' : getRow data ((a + 1) - 1) = some row := by
      rw [show a + 1 - 1 = a by ring, hrow]
    have hidx : idxRange (a + 1) b = consec (a + 1) (b - a).toNat := by
      rw [idxRange_eq_consec, show b + 1 - (a + 1) = b - a by ring]
    rw [idxRange_eq_cons hab, groupTicks_cons, hrow, Option.some_bind, hu,
      hidx, groupTicks_run stateOf hu _ _ row hprev' hv', Option.some_bind,
      List.filterMap_cons, hrow, Option.some_bind, if_pos rfl]
    simp only [hc0 row, if_true, List.singleton_append]
    congr 2
    apply List.filterMap_congr
    intro i hi
    have hne : ¬ i = a := by
      have := mem_consec.mp hi
      omega
    simp only [hne, if_false]

theorem ticksDaily_eq_spec {data : List Bar} {toPixel : Int → Int}
    {a b : Int} (hv : ∀ i : Int, a ≤ i → i ≤ b → (getRow data i).isSome)
    (hmon : ∀ (i : Int) (row prev : Bar), a + 1 ≤ i → i ≤ b →
      getRow data i = some row → getRow data (i - 1) = some prev →
      row.month = prev.month → row.year = prev.year) :
    ticksDaily data toPixel (none, none) (idxRange a b) =
      some (dailyTicksSpec data toPixel a b) := by
  unfold ticksDaily dailyTicksSpec
  rw [groupTicks_run_top (fun row => (some row.month, some row.year))
    (none, none) (fun _ _ => rfl) (fun row => by simp) a b hv]
  congr 1
  apply List.filterMap_congr
  intro i hi
  obtain ⟨hai, hib⟩ := mem_idxRange.mp hi
  unfold dailyTickSpecAt
  cases hrow : getRow data i with
  | none => simp
  | some row =>
    simp only [Option.some_bind]
    by_cases hia : i = a
    · simp [hia]
    · simp only [hia, if_false]
      cases hprev : getRow data (i - 1) with
      | none => simp
      | some prev =>
        simp only [Option.some_bind]
        by_cases hm : row.month = prev.month
        · have hy := hmon i row prev (by omega) hib hrow hprev hm
          simp [hm, hy]
        · by_cases hyy : row.year = prev.year <;>
            simp [hm, Ne.symm hm, hyy]

theorem ticksSubHour_eq_spec {data : List Bar} {toPixel : Int → Int}
    {halfBar : Int} {a b : Int}
    (hv : ∀ i : Int, a ≤ i → i ≤ b → (getRow data i).isSome)
    (hday : ∀ (i : Int) (row prev : Bar), a + 1 ≤ i → i ≤ b →
      getRow data i = some row → getRow data (i - 1) = some prev →
      row.day = prev.day → row.month = prev.month ∧ row.year = prev.year) :
    ticksSubHour data toPixel halfBar (none, none) (idxRange a b) =
      some (subHourTicksSpec data toPixel halfBar a b) := by
  unfold ticksSubHour subHourTicksSpec
  rw [groupTicks_run_top (fun row => (some row.month, some row.day))
    (none, none) (fun _ _ => rfl) (fun row => by simp) a b hv]
  congr 1
  apply List.filterMap_congr
  intro i hi
  obtain ⟨hai, hib⟩ := mem_idxRange.mp hi
  unfold subHourTickSpecAt
  cases hrow : getRow data i with
  | none => simp
  | some row =>
    simp only [Option.some_bind]
    by_cases hia : i = a
    · simp [hia]
    · simp only [hia, if_false]
      cases hprev : getRow data (i - 1) with
      | none => simp
      | some prev =>
        simp only [Option.some_bind]
        by_cases hd : row.day = prev.day
        · obtain ⟨hm, hy⟩ := hday i row prev (by omega) hib hrow hprev hd
          simp [hd, hm, hy]
        · by_cases hmm : row.month = prev.month <;>
            simp [hd, Ne.symm hd, hmm]

theorem _optimalTicks_subHour {st : XAxisState}
    (h : st.interval ∈ ["5m", "10m", "15m", "30m", "1h"]) :
    _optimalTicks st = ticksSubHour st.data st.toPixel st.halfBar
      (none, none) (idxRange st.visibleFrom (st.visibleTo - 1)) := by
  unfold _optimalTicks
  simp only [List.mem_cons, List.not_mem_nil, or_false] at h
  rcases h with h | h | h | h | h <;> rw [h] <;> simp [calcRange]

theorem _optimalTicks_weekly {st : XAxisState}
    (h : st.interval ∈ ["2h", "3h"]) :
    _optimalTicks st = ticksWeekly st.data st.toPixel
      (none, none) (idxRange st.visibleFrom (st.visibleTo - 1)) := by
  unfold _optimalTicks
  simp only [List.mem_cons, List.not_mem_nil, or_false] at h
  rcases h with h | h <;> rw [h] <;> simp [calcRange]

theorem _optimalTicks_daily {st : XAxisState} (h : st.interval = "1d") :
    _optimalTicks st = ticksDaily st.data st.toPixel
      (none, none) (idxRange st.visibleFrom (st.visibleTo - 1)) := by
  unfold _optimalTicks
  rw [h]
  simp [calcRange]

theorem _optimalTicks_yearly {st : XAxisState}
    (h : st.interval ∈ ["1w", "1mo"]) :
    _optimalTicks st = ticksYearly st.data st.toPixel
      none (idxRange st.visibleFrom (st.visibleTo - 1)) := by
  unfold _optimalTicks
  simp only [List.mem_cons, List.not_mem_nil, or_false] at h
  rcases h with h | h <;> rw [h] <;> simp [calcRange]

theorem groupTicks_props {σ : Type} {data : List Bar} {c : σ → Bar → Bool}
    {mk : Int → Bar → σ → Tick} {u : σ → Bar → σ} (s₀ : σ)
    (hmk : ∀ i row s, (mk i row s).value = i)
    (hc0 : ∀ row, c s₀ row = true) {a b : Int} (hab : a ≤ b)
    (hv : ∀ i : Int, a ≤ i → i ≤ b → (getRow data i).isSome) :
    ∃ ts, groupTicks data c mk u s₀ (idxRange a b) = some ts ∧
      ts.head?.map (fun t => t.value) = some a ∧
      ts.Pairwise (fun t1 t2 => t1.value < t2.value) := by
  obtain ⟨ts, hts⟩ := groupTicks_isSome data c mk u (idxRange a b) s₀
    (fun i hi => hv i (mem_idxRange.mp hi).1 (mem_idxRange.mp hi).2)
  refine ⟨ts, hts, ?_, ?_⟩
  · rw [idxRange_eq_cons hab] at hts
    obtain ⟨row, hrow⟩ := Option.isSome_iff_exists.mp (hv a le_rfl hab)
    obtain ⟨ts', hts'⟩ := groupTicks_head hrow (hc0 row) hts
    subst hts'
    simp [hmk]
  · have hsub := groupTicks_values_sublist hmk hts
    have hpw : (ts.map (fun t => t.value)).Pairwise (· < ·) :=
      (pairwise_idxRange a b).sublist hsub
    exact List.pairwise_map.mp hpw

/-! Claim theorems. -/

/-- C1: composing the forward conversion `convertToPixel` with the inverse
`convertFromPixel` returns the original index, within at most one bar-space
unit, for every index in the visible range under a fixed pan/zoom state. -/
theorem claim_C1_roundtrip (s : TimeScaleState) (i : Int)
    (hbs : 0 < s.barSpace) (hhb0 : 0 ≤ s.halfBar)
    (hhb1 : s.halfBar < s.barSpace)
    (_hlo : s.vfrom ≤ i) (_hhi : i ≤ s.vto) :
    (convertFromPixel s (convertToPixel s i) - i).natAbs ≤ 1 := by
  unfold convertFromPixel convertToPixel coordinateToDataIndex
    dataIndexToCoordinate
  have h1 : s.origin + i * s.barSpace + s.halfBar - s.origin
      = s.halfBar + i * s.barSpace := by ring
  rw [h1, Int.fdiv_eq_ediv _ (by omega),
    Int.add_mul_ediv_right s.halfBar i (by omega : s.barSpace ≠ 0),
    Int.ediv_eq_zero_of_lt hhb0 hhb1, zero_add]
  simp

theorem claim_C1_roundtrip_witness :
    0 < tsC1.barSpace ∧ 0 ≤ tsC1.halfBar ∧ tsC1.halfBar < tsC1.barSpace ∧
    tsC1.vfrom ≤ 3 ∧ (3 : Int) ≤ tsC1.vto ∧
    (convertFromPixel tsC1 (convertToPixel tsC1 3) - 3).natAbs ≤ 1 :=
  ⟨by decide, by decide, by decide, by decide, by decide,
    claim_C1_roundtrip tsC1 3 (by decide) (by decide) (by decide)
      (by decide) (by decide)⟩

/-- C4: the public `optimalTicks` returns exactly `_optimalTicks`; the
legacy code after its first return statement never affects the returned
tick sequence (and is not merely equivalent: on some inputs the legacy
strategy would return something else). -/
theorem claim_C4_unreachable :
    (∀ (st : XAxisState) (ticks : List RawTick),
        optimalTicks st ticks = _optimalTicks st) ∧
    ∃ (st : XAxisState) (ticks : List RawTick),
        optimalTicksLegacy st ticks ≠ _optimalTicks st :=
  ⟨fun _ _ => rfl, ⟨stC7, [{ value := 0 }], by decide⟩⟩

/-- C7: with an empty bar array or a degenerate visible range the tick
generator returns the empty tick sequence for every interval string, under
the spec invariant `0 ≤ from ≤ to ≤ totalBarCount` of the store range. -/
theorem claim_C7_empty (st : XAxisState)
    (hinv : 0 ≤ st.visibleFrom ∧ st.visibleFrom ≤ st.visibleTo ∧
      st.visibleTo ≤ st.data.length)
    (h : st.data = [] ∨ st.visibleTo - 1 < st.visibleFrom) :
    _optimalTicks st = some [] := by
  have hdeg : st.visibleTo - 1 < st.visibleFrom := by
    rcases h with h | h
    · have hlen : st.data.length = 0 := by rw [h]; rfl
      omega
    · exact h
  have hnil : idxRange st.visibleFrom (st.visibleTo - 1) = [] :=
    idxRange_eq_nil hdeg
  unfold _optimalTicks
  simp only [calcRange, hnil]
  split_ifs <;> rfl

theorem claim_C7_empty_witness :
    _optimalTicks stC7 = some [] :=
  claim_C7_empty stC7 (by decide) (Or.inl rfl)

/-- C8 (amended): `calcRange` copies the store bounds but decrements both
the `to` field and the `realTo` field by one; `range` and `realRange` are
the store range length. The plain `to` field does not keep the exclusive
store bound. -/
theorem claim_C8_calcRange (vfrom vto : Int) :
    calcRange vfrom vto =
      { from' := vfrom, to' := vto - 1, range := vto - vfrom,
        realFrom := vfrom, realTo := vto - 1,
        realRange := vto - vfrom } := rfl

/-- C8 counterexample: for the store range 0..10 the returned `to` field is
9, not the exclusive store bound 10 the claim asserts. -/
theorem claim_C8_counterexample :
    (calcRange 0 10).to' = 9 ∧ ¬ (calcRange 0 10).to' = 10 := by decide

/-- C9: with the axis height configured auto and the axis shown,
`getAutoSize` returns the larger of the axis band height and the crosshair
vertical readout label height, each summed exactly as the claim words it. -/
theorem claim_C9_autosize (styles : Styles)
    (hauto : styles.xAxis.size = none)
    (hshow : styles.xAxis.show' = true) :
    getAutoSize styles =
      max (axisBandHeightSpec styles.xAxis)
        (crosshairLabelHeightSpec styles.crosshair) := by
  unfold getAutoSize axisBandHeightSpec crosshairLabelHeightSpec
  rw [hauto]
  simp [hshow]

theorem claim_C9_autosize_witness :
    getAutoSize stylesC9 = 26 ∧
    max (axisBandHeightSpec stylesC9.xAxis)
      (crosshairLabelHeightSpec stylesC9.crosshair) = 26 := by
  constructor
  · rw [claim_C9_autosize stylesC9 rfl rfl]
    decide
  · decide

/-- C2: under the daily interval, over bars whose adjacent month numbers
only repeat within the same calendar month, the generator emits exactly one
tick at the first visible bar of each calendar month, labeled with the
abbreviated month name when the year is unchanged from the previous group
and with the four-digit year otherwise. -/
theorem claim_C2_daily (st : XAxisState) (hitv : st.interval = "1d")
    (hv : ∀ i : Int, st.visibleFrom ≤ i → i ≤ st.visibleTo - 1 →
      (getRow st.data i).isSome)
    (hmon : ∀ (i : Int) (row prev : Bar), st.visibleFrom + 1 ≤ i →
      i ≤ st.visibleTo - 1 → getRow st.data i = some row →
      getRow st.data (i - 1) = some prev →
      row.month = prev.month → row.year = prev.year) :
    _optimalTicks st =
      some (dailyTicksSpec st.data st.toPixel st.visibleFrom
        (st.visibleTo - 1)) := by
  rw [_optimalTicks_daily hitv]
  exact ticksDaily_eq_spec hv hmon

theorem claim_C2_daily_witness :
    _optimalTicks stC2 =
      some [{ text := "2021", coord := 0, value := 0 },
            { text := "Feb", coord := 40, value := 4 }] := by
  rw [claim_C2_daily stC2 rfl ?_ ?_]
  · decide
  · intro i h1 h2
    have h1' : 0 ≤ i := by simpa [stC2] using h1
    have h2' : i ≤ 6 := by simpa [stC2] using h2
    rw [getRow_isSome]
    have hlen : (stC2.data.length : Int) = 7 := by decide
    exact ⟨h1', by omega⟩
  · intro i row prev h1 h2 hrow hprev _
    have h1' : 1 ≤ i := by simpa [stC2] using h1
    have h2' : i ≤ 6 := by simpa [stC2] using h2
    interval_cases i <;>
      simp [stC2, dataC2, mkBar, getRow] at hrow hprev <;>
      subst hrow <;> subst hprev <;> rfl

/-- C3: under the sub-hour through 1h intervals, over bars whose adjacent
day numbers only repeat within the same calendar day, the generator emits
one tick at the first bar of each new calendar day — day number alone when
the month repeats, abbreviated month plus day number otherwise — at the bar
coordinate offset backward by half a bar width; under every other
recognized interval, ticks sit exactly at the bar coordinate. -/
theorem claim_C3_subhour_offset :
    (∀ st : XAxisState, st.interval ∈ ["5m", "10m", "15m", "30m", "1h"] →
      (∀ i : Int, st.visibleFrom ≤ i → i ≤ st.visibleTo - 1 →
        (getRow st.data i).isSome) →
      (∀ (i : Int) (row prev : Bar), st.visibleFrom + 1 ≤ i →
        i ≤ st.visibleTo - 1 → getRow st.data i = some row →
        getRow st.data (i - 1) = some prev →
        row.day = prev.day → row.month = prev.month ∧ row.year = prev.year) →
      _optimalTicks st =
        some (subHourTicksSpec st.data st.toPixel st.halfBar st.visibleFrom
          (st.visibleTo - 1))) ∧
    (∀ (st : XAxisState) (ts : List Tick) (t : Tick),
      st.interval ∈ ["2h", "3h", "1d", "1w", "1mo"] →
      _optimalTicks st = some ts → t ∈ ts →
      t.coord = st.toPixel t.value) := by
  constructor
  · intro st hitv hv hday
    rw [_optimalTicks_subHour hitv]
    exact ticksSubHour_eq_spec hv hday
  · intro st ts t hitv hrun htm
    simp only [List.mem_cons, List.not_mem_nil, or_false] at hitv
    rcases hitv with h | h | h | h | h
    · rw [_optimalTicks_weekly (by simp [h])] at hrun
      unfold ticksWeekly at hrun
      obtain ⟨i, row, s', _, _, ht⟩ := groupTicks_mem hrun t htm
      subst ht; rfl
    · rw [_optimalTicks_weekly (by simp [h])] at hrun
      unfold ticksWeekly at hrun
      obtain ⟨i, row, s', _, _, ht⟩ := groupTicks_mem hrun t htm
      subst ht; rfl
    · rw [_optimalTicks_daily h] at hrun
      unfold ticksDaily at hrun
      obtain ⟨i, row, s', _, _, ht⟩ := groupTicks_mem hrun t htm
      subst ht; rfl
    · rw [_optimalTicks_yearly (by simp [h])] at hrun
      unfold ticksYearly at hrun
      obtain ⟨i, row, s', _, _, ht⟩ := groupTicks_mem hrun t htm
      subst ht; rfl
    · rw [_optimalTicks_yearly (by simp [h])] at hrun
      unfold ticksYearly at hrun
      obtain ⟨i, row, s', _, _, ht⟩ := groupTicks_mem hrun t htm
      subst ht; rfl

theorem claim_C3_subhour_offset_witness :
    _optimalTicks stC3 =
      some [{ text := "Jan 31", coord := -2, value := 0 },
            { text := "Feb 1", coord := 8, value := 1 }] ∧
    ({ text := "4 Jan", coord := 0, value := 0 } : Tick).coord =
      stC3b.toPixel ({ text := "4 Jan", coord := 0, value := 0 } : Tick).value := by
  constructor
  · rw [claim_C3_subhour_offset.1 stC3 (by decide) ?_ ?_]
    · decide
    · intro i h1 h2
      have h1' : 0 ≤ i := by simpa [stC3] using h1
      have h2' : i ≤ 2 := by simpa [stC3] using h2
      rw [getRow_isSome]
      have hlen : (stC3.data.length : Int) = 3 := by decide
      exact ⟨h1', by omega⟩
    · intro i row prev h1 h2 hrow hprev hd
      have h1' : 1 ≤ i := by simpa [stC3] using h1
      have h2' : i ≤ 2 := by simpa [stC3] using h2
      interval_cases i <;>
        simp [stC3, dataC3, mkBar, getRow] at hrow hprev <;>
        subst hrow <;> subst hprev <;>
        simp_all
  · exact claim_C3_subhour_offset.2 stC3b
      [{ text := "4 Jan", coord := 0, value := 0 }]
      { text := "4 Jan", coord := 0, value := 0 }
      (by decide) (by decide) (by decide)

/-- C10: for every recognized interval and non-degenerate visible range
over present bars, the generator succeeds, its first tick sits at index
`realFrom`, and tick values are strictly increasing data indices. -/
theorem claim_C10_invariants (st : XAxisState)
    (hitv : st.interval ∈
      ["5m", "10m", "15m", "30m", "1h", "2h", "3h", "1d", "1w", "1mo"])
    (hle : st.visibleFrom ≤ st.visibleTo - 1)
    (hv : ∀ i : Int, st.visibleFrom ≤ i → i ≤ st.visibleTo - 1 →
      (getRow st.data i).isSome) :
    ∃ ts, _optimalTicks st = some ts ∧
      ts.head?.map (fun t => t.value) = some st.visibleFrom ∧
      ts.Pairwise (fun t1 t2 => t1.value < t2.value) := by
  simp only [List.mem_cons, List.not_mem_nil, or_false] at hitv
  rcases hitv with h | h | h | h | h | h | h | h | h | h
  · rw [_optimalTicks_subHour (by simp [h])]
    unfold ticksSubHour
    exact groupTicks_props _ (fun _ _ _ => rfl) (fun row => by simp) hle hv
  · rw [_optimalTicks_subHour (by simp [h])]
    unfold ticksSubHour
    exact groupTicks_props _ (fun _ _ _ => rfl) (fun row => by simp) hle hv
  · rw [_optimalTicks_subHour (by simp [h])]
    unfold ticksSubHour
    exact groupTicks_props _ (fun _ _ _ => rfl) (fun row => by simp) hle hv
  · rw [_optimalTicks_subHour (by simp [h])]
    unfold ticksSubHour
    exact groupTicks_props _ (fun _ _ _ => rfl) (fun row => by simp) hle hv
  · rw [_optimalTicks_subHour (by simp [h])]
    unfold ticksSubHour
    exact groupTicks_props _ (fun _ _ _ => rfl) (fun row => by simp) hle hv
  · rw [_optimalTicks_weekly (by simp [h])]
    unfold ticksWeekly
    exact groupTicks_props _ (fun _ _ _ => rfl) (fun row => by simp) hle hv
  · rw [_optimalTicks_weekly (by simp [h])]
    unfold ticksWeekly
    exact groupTicks_props _ (fun _ _ _ => rfl) (fun row => by simp) hle hv
  · rw [_optimalTicks_daily h]
    unfold ticksDaily
    exact groupTicks_props _ (fun _ _ _ => rfl) (fun row => by simp) hle hv
  · rw [_optimalTicks_yearly (by simp [h])]
    unfold ticksYearly
    exact groupTicks_props _ (fun _ _ _ => rfl) (fun row => by simp) hle hv
  · rw [_optimalTicks_yearly (by simp [h])]
    unfold ticksYearly
    exact groupTicks_props _ (fun _ _ _ => rfl) (fun row => by simp) hle hv

theorem claim_C10_invariants_witness :
    ∃ ts, _optimalTicks stC2 = some ts ∧
      ts.head?.map (fun t => t.value) = some stC2.visibleFrom ∧
      ts.Pairwise (fun t1 t2 => t1.value < t2.value) := by
  refine claim_C10_invariants stC2 (by decide) (by decide) ?_
  intro i h1 h2
  have h1' : 0 ≤ i := by simpa [stC2] using h1
  have h2' : i ≤ 6 := by simpa [stC2] using h2
  rw [getRow_isSome]
  have hlen : (stC2.data.length : Int) = 7 := by decide
  exact ⟨h1', by omega⟩

theorem legacyPost_length (st : XAxisState) (l : List Tick) :
    (legacyPost st l).length = l.length := by
  rcases l with _ | ⟨t0, _ | ⟨t1, _ | ⟨t2, rest⟩⟩⟩ <;> simp [legacyPost]

/-- C5 counterexample: on a single-bar daily chart the live generator
returns one tick whose text is the plain year label, not the fully
qualified year-month-day hour:minute formatting of the timestamp of the
bar (1111) nor of the tick value. -/
theorem claim_C5_counterexample :
    optimalTicks stC5 [] =
      some [{ text := "2021", coord := 0, value := 0 }] ∧
    "2021" ≠ stC5.fmtDate "YYYY-MM-DD HH:mm" 1111 ∧
    "2021" ≠ stC5.fmtDate "YYYY-MM-DD HH:mm" 0 := by decide

/-- C5 (amended): the single-tick relabeling to `YYYY-MM-DD HH:mm` lives
only in the unreachable legacy strategy: whenever the legacy body produces
exactly one tick, that tick text is the fully qualified formatting of its
timestamp; the live path returns the group label unchanged. -/
theorem claim_C5_amended (st : XAxisState) (ticks : List RawTick)
    (l : List Tick) (h : optimalTicksLegacy st ticks = some l)
    (h1 : l.length = 1) :
    ∀ t ∈ l, t.text = st.fmtDate "YYYY-MM-DD HH:mm" t.value := by
  unfold optimalTicksLegacy at h
  split at h
  · rw [Option.some_inj] at h
    subst h
    simp at h1
  · cases hm : (strideIndices ticks.length (legacyStride st ticks)).mapM
        (legacyTick st ticks (legacyStride st ticks)) with
    | none => rw [hm] at h; simp at h
    | some l' =>
      rw [hm, Option.some_bind, Option.some_inj] at h
      subst h
      have hlen : l'.length = 1 := by rw [legacyPost_length] at h1; exact h1
      obtain ⟨t', ht'⟩ := List.length_eq_one.mp hlen
      subst ht'
      intro t ht
      simp only [legacyPost, List.mem_singleton] at ht
      subst ht
      rfl

theorem claim_C5_amended_witness :
    ∃ l, optimalTicksLegacy stC5 [{ value := 0 }] = some l ∧
      l.length = 1 ∧
      ∀ t ∈ l, t.text = stC5.fmtDate "YYYY-MM-DD HH:mm" t.value :=
  ⟨[{ text := "YYYY-MM-DD HH:mm@1111", coord := 0, value := 1111 }],
    by decide, by decide,
    claim_C5_amended stC5 [{ value := 0 }] _ (by decide) (by decide)⟩

theorem legacyPost_values (st : XAxisState) (l : List Tick) :
    (legacyPost st l).map (fun t => t.value) = l.map (fun t => t.value) := by
  rcases l with _ | ⟨t0, _ | ⟨t1, _ | ⟨t2, rest⟩⟩⟩ <;>
    first
      | rfl
      | (simp only [legacyPost, List.map_cons]; split_ifs <;> rfl)

theorem mapM_some_map {α β γ : Type} (f : α → Option β) (h : β → γ) :
    ∀ (is : List α) (ys : List β), is.mapM f = some ys →
      ys.map (fun y => some (h y)) = is.map (fun i => (f i).map h) := by
  intro is
  induction is with
  | nil =>
    intro ys hm
    rw [List.mapM_nil, Option.pure_def, Option.some_inj] at hm
    subst hm
    simp
  | cons i is ih =>
    intro ys hm
    rw [List.mapM_cons] at hm
    obtain ⟨y, hy, hm2⟩ := Option.bind_eq_some.mp hm
    obtain ⟨ys', hys', hm3⟩ := Option.bind_eq_some.mp hm2
    rw [Option.pure_def, Option.some_inj] at hm3
    subst hm3
    simp only [List.map_cons, hy, Option.map_some']
    rw [ih ys' hys']

theorem mapM_some_forall {α β : Type} (f : α → Option β) :
    ∀ (is : List α) (ys : List β), is.mapM f = some ys →
      ∀ i ∈ is, (f i).isSome := by
  intro is
  induction is with
  | nil => intro ys _ i hi; simp at hi
  | cons j is ih =>
    intro ys hm i hi
    rw [List.mapM_cons] at hm
    obtain ⟨y, hy, hm2⟩ := Option.bind_eq_some.mp hm
    obtain ⟨ys', hys', _⟩ := Option.bind_eq_some.mp hm2
    rcases List.mem_cons.mp hi with hij | hii
    · subst hij; rw [hy]; rfl
    · exact ih ys' hys' i hii

theorem legacyTick_value {st : XAxisState} {ticks : List RawTick}
    {stride : Nat} {i : Nat} {t : Tick}
    (h : legacyTick st ticks stride i = some t) :
    candTs st ticks i = some t.value := by
  unfold legacyTick at h
  obtain ⟨t0, ht0, h⟩ := Option.bind_eq_some.mp h
  obtain ⟨row, hrow, h⟩ := Option.bind_eq_some.mp h
  unfold candTs
  rw [ht0, Option.some_bind, hrow, Option.map_some']
  by_cases hi : i = 0
  · subst hi
    simp only [ne_eq, not_true_eq_false, if_false, Option.bind_eq_bind,
      Option.some_bind, Option.some_inj] at h
    subst h
    rfl
  · simp only [ne_eq, hi, not_false_eq_true, if_true] at h
    obtain ⟨pt, hpt, h⟩ := Option.bind_eq_some.mp h
    obtain ⟨prow, hprow, h⟩ := Option.bind_eq_some.mp h
    simp only [Option.bind_eq_bind, Option.some_bind, Option.some_inj] at h
    subst h
    rfl

/-- C6: in the legacy density-reduction strategy, with at least two
candidates whose positive pixel gap is below the reference label width, the
stride is the least `N` with `N` times the gap at least the width (the
ceiling of width over gap), and the returned ticks are exactly the
candidates at indices 0, N, 2N, ...; with the gap at least the width the
stride is 1 and every candidate is kept. -/
theorem claim_C6_density (st : XAxisState) (t0 t1 : RawTick)
    (rest : List RawTick)
    (hg : 0 < (st.toPixel t1.value - st.toPixel t0.value).natAbs) :
    ((st.toPixel t1.value - st.toPixel t0.value).natAbs < st.labelWidth →
      st.labelWidth ≤ legacyStride st (t0 :: t1 :: rest) *
        (st.toPixel t1.value - st.toPixel t0.value).natAbs ∧
      (legacyStride st (t0 :: t1 :: rest) - 1) *
        (st.toPixel t1.value - st.toPixel t0.value).natAbs <
        st.labelWidth) ∧
    (st.labelWidth ≤ (st.toPixel t1.value - st.toPixel t0.value).natAbs →
      legacyStride st (t0 :: t1 :: rest) = 1) ∧
    (∀ l, optimalTicksLegacy st (t0 :: t1 :: rest) = some l →
      l.map (fun t => some t.value) =
        (strideIndices (t0 :: t1 :: rest).length
          (legacyStride st (t0 :: t1 :: rest))).map
          (candTs st (t0 :: t1 :: rest))) := by
  refine ⟨?_, ?_, ?_⟩
  · intro hlt
    have hN : legacyStride st (t0 :: t1 :: rest) =
        (st.labelWidth + (st.toPixel t1.value - st.toPixel t0.value).natAbs
          - 1) / (st.toPixel t1.value - st.toPixel t0.value).natAbs := by
      unfold legacyStride
      simp [hlt, hg.ne']
    rw [hN]
    obtain ⟨g, hgdef⟩ : ∃ g, (st.toPixel t1.value -
        st.toPixel t0.value).natAbs = g := ⟨_, rfl⟩
    rw [hgdef] at hlt hg ⊢
    have hdm := Nat.div_add_mod (st.labelWidth + g - 1) g
    have hmod := Nat.mod_lt (st.labelWidth + g - 1) hg
    obtain ⟨M, hM⟩ : ∃ M, g * ((st.labelWidth + g - 1) / g) = M := ⟨_, rfl⟩
    rw [hM] at hdm
    constructor
    · rw [Nat.mul_comm, hM]
      omega
    · rw [Nat.sub_mul, Nat.one_mul, Nat.mul_comm, hM]
      omega
  · intro hge
    unfold legacyStride
    simp [Nat.not_lt.mpr hge]
  · intro l h
    unfold optimalTicksLegacy at h
    rw [if_neg (by simp)] at h
    obtain ⟨l', hm', hpost⟩ := Option.bind_eq_some.mp h
    rw [Option.some_inj] at hpost
    subst hpost
    have h1 : (legacyPost st l').map (fun t => some t.value) =
        l'.map (fun t => some t.value) := by
      rw [show (fun t : Tick => some t.value) =
          (some ∘ fun t : Tick => t.value) from rfl, ← List.map_map,
        ← List.map_map, legacyPost_values]
    rw [h1, mapM_some_map _ (fun t => t.value) _ _ hm']
    apply List.map_congr_left
    intro i hi
    obtain ⟨t, ht⟩ := Option.isSome_iff_exists.mp
      (mapM_some_forall _ _ _ hm' i hi)
    rw [ht, Option.map_some']
    exact (legacyTick_value ht).symm

theorem claim_C6_density_witness :
    ∃ l, optimalTicksLegacy stC6 ticksC6 = some l ∧
      l.map (fun t => some t.value) =
        (strideIndices ticksC6.length (legacyStride stC6 ticksC6)).map
          (candTs stC6 ticksC6) ∧
      legacyStride stC6 ticksC6 = 3 := by
  refine ⟨[{ text := "YYYY@500", coord := 0, value := 500 },
           { text := "YYYY@503", coord := 9, value := 503 }],
    by decide, ?_, by decide⟩
  exact (claim_C6_density stC6 { value := 0 } { value := 1 }
    [{ value := 2 }, { value := 3 }] (by decide)).2.2 _ (by decide)

end KLine
